import Mathlib

/-!
Verification of the AgentUp core against its specification.

This file shallowly embeds the parts of the AgentUp source that the
frozen claims are about:

* `src/agent/agent_executor.py` (executor, router, result shaping)
* `src/agent/security/unified_auth.py` (auth manager, scope hierarchy)
* `src/agent/mcp_support/mcp_integration.py` (MCP tool registration)
* `src/agent/state/model.py` (conversation state variables)
* `src/agent/llm_manager.py` (LLM function calling)

Python dicts are modelled as association lists queried with
`List.lookup` (first match, mirroring unique dict keys), Python sets as
lists whose membership is what matters, Python exceptions as `Except` or
dedicated outcome types, and external library calls (regex search, JWT
decoding, HTTP token validation, LLM completion) as oracle function
parameters.  Timestamps are integers (seconds).
-/

set_option maxHeartbeats 1600000

namespace AgentUp

/-- A dynamically typed Python value, as far as the executor's result
shaping inspects it: strings, ints, bools, lists, dicts and None. -/
inductive PyValue where
  | vNone : PyValue
  | vStr (s : String) : PyValue
  | vInt (n : Int) : PyValue
  | vBool (b : Bool) : PyValue
  | vList (l : List PyValue) : PyValue
  | vDict (d : List (String × PyValue)) : PyValue

/-- Python truthiness (`bool(v)`): None, empty string, 0, False, empty
list and empty dict are falsy; everything else is truthy. -/
def PyValue.truthy : PyValue → Bool
  | .vNone => false
  | .vStr s => !(s == "")
  | .vInt n => !(n == 0)
  | .vBool b => b
  | .vList [] => false
  | .vList (_ :: _) => true
  | .vDict [] => false
  | .vDict (_ :: _) => true

/-- Python `str(v)` for the values the fallback branch of result shaping
can see (`str` on a string returns it unchanged). -/
def PyValue.pyStr : PyValue → String
  | .vNone => "None"
  | .vStr s => s
  | .vInt n => toString n
  | .vBool b => if b then "True" else "False"
  | .vList _ => "<list>"
  | .vDict _ => "<dict>"

/-- A2A task states, from `a2a.types.TaskState` as used by the executor. -/
inductive TaskState where
  | submitted | working | input_required | completed | failed | canceled | rejected
deriving DecidableEq

/-- A content part as constructed by the executor: the code passes the raw
Python value into `TextPart(text=...)` / `DataPart(data=...)`. -/
inductive RPart where
  | textPart (text : PyValue) : RPart
  | dataPart (data : PyValue) : RPart

/-- One call on the `TaskUpdater` made by the executor. -/
inductive UpdaterAction where
  | updateStatus (state : TaskState) (message : String) (final : Bool) : UpdaterAction
  | addArtifact (parts : List RPart) (name : String) : UpdaterAction
  | complete : UpdaterAction

/-- `GenericAgentExecutor._create_response_artifact` (agent_executor.py,
lines 319-366): falsy results complete with a fixed message and no
artifact; otherwise parts are shaped by the result's runtime type and a
single artifact named `agentName ++ "-result"` is added. -/
def createResponseArtifact (agentName : String) (result : PyValue) : List UpdaterAction :=
  if !result.truthy then
    [.updateStatus .completed "Task completed successfully." true]
  else
    let parts : List RPart :=
      match result with
      | .vStr s => [.textPart (.vStr s)]
      | .vDict d =>
          (match List.lookup "summary" d with
           | some sv => [.textPart sv]
           | none => []) ++ [.dataPart (.vDict d)]
      | .vList l => [.dataPart (.vDict [("items", .vList l)])]
      | other => [.textPart (.vStr other.pyStr)]
    [.addArtifact parts (agentName ++ "-result"), .complete]

/-- A Python exception reaching the `try` of `GenericAgentExecutor.execute`:
either a `ValueError` or any other exception, with its message. -/
inductive PyExc where
  | valueError (msg : String) : PyExc
  | otherError (msg : String) : PyExc
deriving DecidableEq

/-- Case-sensitive substring test, modelling Python's `in` on strings. -/
def strContains (hay needle : String) : Bool :=
  decide (needle.data <:+: hay.data)

/-- Python `s.lower()` (character-wise, as for the ASCII scope and keyword
strings the code compares). -/
def strLower (s : String) : String :=
  String.mk (s.data.map Char.toLower)

/-- Python `s.startswith(pre)`. -/
def strStartsWith (s pre : String) : Bool :=
  decide (pre.data <+: s.data)

/-- Python `s[n:]`. -/
def strDrop (s : String) (n : Nat) : String :=
  String.mk (s.data.drop n)

/-- Python `s.replace(c, r)` for single-character arguments. -/
def replaceChar (s : String) (c r : Char) : String :=
  String.mk (s.data.map (fun x => if x = c then r else x))

/-- The `except` clauses of `GenericAgentExecutor.execute` (agent_executor.py,
lines 144-167): a `ValueError` whose lowercased message contains
"unsupported" yields a `rejected` status; a `ValueError` without the marker
is swallowed with no status update; any other exception yields `failed`. -/
def executeExceptionHandling (e : PyExc) : List UpdaterAction :=
  match e with
  | .valueError m =>
      if strContains (strLower m) "unsupported" then
        [.updateStatus .rejected ("This operation is not supported: " ++ m) true]
      else
        []
  | .otherError m =>
      [.updateStatus .failed ("I encountered an error processing your request: " ++ m) true]

/-- Outcome of looking up and invoking the handler for a skill: the
registry may have no handler, and the handler may return a value or raise. -/
inductive HandlerOutcome where
  | noHandler : HandlerOutcome
  | ok (v : PyValue) : HandlerOutcome
  | raises (msg : String) : HandlerOutcome

/-- `GenericAgentExecutor._process_direct_routing` (agent_executor.py,
lines 204-225): a missing handler and a handler exception are both turned
into plain result strings; a non-string result is stringified. -/
def processDirectRouting (skillId : String) (outcome : HandlerOutcome) : String :=
  match outcome with
  | .noHandler => "No handler found for skill: " ++ skillId
  | .ok v => match v with
      | .vStr s => s
      | other => other.pyStr
  | .raises m => "Error processing request: " ++ m

/-! ## Router (`_determine_skill_and_routing`) -/

/-- One entry of `self.skills` as built in `GenericAgentExecutor.__init__`. -/
structure SkillRouting where
  skill_id : String
  routing_mode : String
  keywords : List String
  patterns : List String
deriving DecidableEq

/-- The fields of the `routing` config section that `__init__` reads with
`dict.get`; `fallback_capability` is carried to show it is never read. -/
structure RoutingConfig where
  default_mode : Option String
  fallback_skill : Option String
  fallback_capability : Option String
  fallback_enabled : Option Bool
deriving DecidableEq

/-- `routing_config.get("default_mode", "ai")` (agent_executor.py line 53). -/
def executorDefaultRoutingMode (rc : RoutingConfig) : String :=
  rc.default_mode.getD "ai"

/-- `routing_config.get("fallback_skill", "echo")` (agent_executor.py line 54). -/
def executorFallbackSkill (rc : RoutingConfig) : String :=
  rc.fallback_skill.getD "echo"

/-- Whether one skill matches the user input, per the body of the loop in
`_determine_skill_and_routing`: first a case-insensitive substring test
against each keyword, then `re.search(pattern, input, re.IGNORECASE)`
against each pattern.  The regex engine is the oracle `reSearch`;
`none` models a `re.error` (invalid pattern), which the code logs and
skips. -/
def skillMatches (reSearch : String → String → Option Bool)
    (userInput : String) (sk : SkillRouting) : Bool :=
  sk.keywords.any (fun kw => strContains (strLower userInput) (strLower kw)) ||
  sk.patterns.any (fun p => (reSearch p userInput).getD false)

/-- `GenericAgentExecutor._determine_skill_and_routing` (agent_executor.py,
lines 169-201): empty input falls back immediately; otherwise the first
direct-mode skill (in configured order) matching by keyword or pattern
wins; otherwise the fallback skill with the default routing mode. -/
def determineSkillAndRouting (reSearch : String → String → Option Bool)
    (skills : List SkillRouting) (fallbackSkill defaultMode : String)
    (userInput : String) : String × String :=
  if userInput = "" then (fallbackSkill, defaultMode)
  else
    match skills.find? (fun sk => sk.routing_mode == "direct" && skillMatches reSearch userInput sk) with
    | some sk => (sk.skill_id, sk.routing_mode)
    | none => (fallbackSkill, defaultMode)

/-! ## LLM function calling (`LLMManager.llm_with_functions`) -/

/-- A function call returned by the provider. -/
structure FunctionCall where
  name : String
  arguments : String
deriving DecidableEq

/-- A provider completion: assistant text plus extracted function calls. -/
structure LLMResponse where
  content : String
  function_calls : List FunctionCall
deriving DecidableEq

/-- Map each function call to its result, with a failing executor call
replaced by an "Error: msg" string (llm_manager.py lines 84-90, 108-114). -/
def runFunctionCalls (execFC : FunctionCall → Except String String)
    (calls : List FunctionCall) : List String :=
  calls.map (fun fc =>
    match execFC fc with
    | .ok r => r
    | .error e => "Error: " ++ e)

/-- `LLMManager.llm_with_functions` (llm_manager.py, lines 56-119).  The
provider is the oracle `llm`, indexed by the round number of the
conversation; the source calls `chat_complete_with_functions` exactly once,
so only `llm 0` is ever consulted.  In the native path a nonempty assistant
content is prefixed to the joined function results; in the prompt-based
path the joined results alone are returned. -/
def llmWithFunctions (llm : Nat → LLMResponse) (hasNativeFC : Bool)
    (execFC : FunctionCall → Except String String) : String :=
  let response := llm 0
  if hasNativeFC then
    if !response.function_calls.isEmpty then
      let results := runFunctionCalls execFC response.function_calls
      if !results.isEmpty then
        if !(response.content == "") then
          response.content ++ "\n\nResults: " ++ String.intercalate "; " results
        else
          String.intercalate "; " results
      else response.content
    else response.content
  else
    if !response.function_calls.isEmpty then
      let results := runFunctionCalls execFC response.function_calls
      if !results.isEmpty then
        String.intercalate "; " results
      else response.content
    else response.content

/-! ## Conversation state (`state/model.py`) -/

/-- `StateVariable` with the fields `get_variable`/`set_variable` touch.
Timestamps and TTLs are integer seconds. -/
structure StateVariable where
  key : String
  value : PyValue
  created_at : Int
  updated_at : Int
  ttl : Option Int
  version : Int

/-- `StateVariable.is_expired` (state/model.py, lines 72-78): a variable
with falsy `ttl` (absent, or zero) never expires; otherwise it is expired
strictly after `updated_at + ttl`. -/
def StateVariable.isExpired (now : Int) (v : StateVariable) : Bool :=
  match v.ttl with
  | none => false
  | some t => if t = 0 then false else decide (now > v.updated_at + t)

/-- The slice of `ConversationState` that variable reads and writes use. -/
structure ConversationVariables where
  vars : List (String × StateVariable)
  max_variable_count : Int

/-- `ConversationState.get_variable` (state/model.py, lines 236-246):
missing keys return the default; an expired variable is deleted from the
state and the default is returned; otherwise the stored value is returned. -/
def getVariable (now : Int) (st : ConversationVariables) (key : String)
    (dflt : PyValue) : PyValue × ConversationVariables :=
  match List.lookup key st.vars with
  | none => (dflt, st)
  | some v =>
      if v.isExpired now then
        (dflt, { st with vars := st.vars.filter (fun p => !(p.1 == key)) })
      else
        (v.value, st)

/-- `ConversationState.set_variable` (state/model.py, lines 215-234):
raises when the variable count is at the limit and the key is new;
an existing variable is updated in place (touch bumps `updated_at` and
`version`, and a provided ttl overwrites); a new variable is created with
`created_at = updated_at = now`. -/
def setVariable (now : Int) (st : ConversationVariables) (key : String)
    (value : PyValue) (ttl : Option Int) : Except String ConversationVariables :=
  if decide ((st.vars.length : Int) ≥ st.max_variable_count) &&
      (List.lookup key st.vars).isNone = true then
    .error "Maximum variable count exceeded"
  else
    match List.lookup key st.vars with
    | some v =>
        let v' := { v with value := value, updated_at := now, version := v.version + 1,
                           ttl := match ttl with | some t => some t | none => v.ttl }
        .ok { st with vars := st.vars.map (fun p => if p.1 = key then (key, v') else p) }
    | none =>
        .ok { st with vars :=
          st.vars ++ [(key, { key := key, value := value, created_at := now,
                                   updated_at := now, ttl := ttl, version := 1 })] }

/-! ## MCP tool registration (`mcp_support/mcp_integration.py`) -/

/-- A remote tool as listed by the MCP client: clean tool name plus the
name of the server providing it. -/
structure McpToolInfo where
  name : String
  server : String
deriving DecidableEq

/-- One MCP server configuration entry, reduced to its `tool_scopes` dict. -/
structure McpServerConfig where
  tool_scopes : List (String × List String)
deriving DecidableEq

/-- `_extract_tool_scopes_from_servers` (mcp_integration.py, lines 8-28):
the per-server dicts are merged with `dict.update`, so a later server's
entry for the same prefixed name overrides an earlier one. -/
def mergedToolScopes (servers : List McpServerConfig) : String → Option (List String) :=
  fun key =>
    servers.foldl (fun acc sc =>
      match List.lookup key sc.tool_scopes with
      | some v => some v
      | none => acc) none

/-- `_get_required_scopes_for_tool` (mcp_integration.py, lines 31-56):
looks up the prefixed name `server:tool` in the merged `tool_scopes`; a
missing entry raises a `ValueError` (fail closed). -/
def getRequiredScopesForTool (toolName serverName : String)
    (toolScopes : String → Option (List String)) : Except String (List String) :=
  match toolScopes (serverName ++ ":" ++ toolName) with
  | none => .error ("MCP tool " ++ serverName ++ ":" ++ toolName ++
      " requires explicit scope configuration")
  | some scopes => .ok scopes

/-- A tool registered with the function registry (sanitized name with
colons replaced by underscores) together with its required scopes. -/
structure RegisteredFunction where
  name : String
  originalName : String
  requiredScopes : List String
deriving DecidableEq

/-- The loop body of `_register_mcp_tools_with_scopes` (mcp_integration.py,
lines 213-268).  The whole loop runs inside one `try`: the `ValueError`
raised for the first tool without a scope entry is caught by the enclosing
`except`, so the tools before it stay registered and every later tool is
skipped. -/
def registerMcpToolsWithScopes (toolScopes : String → Option (List String)) :
    List McpToolInfo → List RegisteredFunction
  | [] => []
  | t :: rest =>
      match getRequiredScopesForTool t.name t.server toolScopes with
      | .error _ => []
      | .ok scopes =>
          { name := replaceChar t.name ':' '_', originalName := t.name,
            requiredScopes := scopes } :: registerMcpToolsWithScopes toolScopes rest

/-- A tool registered as a local capability (hyphens replaced by
underscores) together with its required scopes. -/
structure RegisteredCapability where
  capabilityName : String
  requiredScopes : List String
deriving DecidableEq

/-- The loop body of `_register_mcp_tools_as_capabilities`
(mcp_integration.py, lines 184-210), with the same abort-on-first-missing
behaviour as the function-registry loop. -/
def registerMcpToolsAsCapabilities (toolScopes : String → Option (List String)) :
    List McpToolInfo → List RegisteredCapability
  | [] => []
  | t :: rest =>
      match getRequiredScopesForTool t.name t.server toolScopes with
      | .error _ => []
      | .ok scopes =>
          { capabilityName := replaceChar t.name '-' '_', requiredScopes := scopes } ::
            registerMcpToolsAsCapabilities toolScopes rest

/-- Whether a tool has an explicit merged `tool_scopes` entry under its
prefixed name. -/
def hasScopeEntry (toolScopes : String → Option (List String)) (t : McpToolInfo) : Bool :=
  (toolScopes (t.server ++ ":" ++ t.name)).isSome

/-! ## Scope hierarchy (`security/unified_auth.py`, `ScopeHierarchy`)

The hierarchy dict `parent -> children` is an association list; the
expansion's `set`/`deque` state is a pair of lists (queue, seen) whose
membership is what matters.  The `while to_process` loop is embedded with
an explicit fuel argument; `bfsAuxFuelEnough` below proves the fuel chosen
by `expandScopes` can never run out, so the embedding computes exactly
what the unbounded Python loop computes. -/

/-- All strings occurring as inherited children anywhere in the hierarchy,
deduplicated: every scope the BFS can ever enqueue beyond its seeds. -/
def hierarchyValues (h : List (String × List String)) : List String :=
  (h.map Prod.snd).flatten.dedup

/-- Number of candidate scopes not yet in `seen`; together with the queue
length this bounds the remaining BFS iterations. -/
def unseenCount (cands seen : List String) : Nat :=
  (cands.filter (fun c => decide (c ∉ seen))).length

/-- The inner `for inherited_scope in inherited` loop of `expand_scopes`
(unified_auth.py, lines 92-97): each child not yet seen is appended to
both the queue and the seen set, in order. -/
def pushFresh (q s : List String) : List String → List String × List String
  | [] => (q, s)
  | i :: tl => if i ∈ s then pushFresh q s tl else pushFresh (q ++ [i]) (s ++ [i]) tl

/-- The `while to_process` loop of `ScopeHierarchy.expand_scopes`
(unified_auth.py, lines 77-99).  Results: `some (some out)` is a normal
return of the expanded set, `some none` is the wildcard short-circuit
return of the singleton star set, `none` means the fuel ran out (which
`bfsAuxFuelEnough` rules out for the fuel used by `expandScopes`). -/
def bfsAux (h : List (String × List String)) :
    Nat → List String → List String → Option (Option (List String))
  | _, [], seen => some (some seen)
  | 0, _ :: _, _ => none
  | fuel + 1, scope :: rest, seen =>
    match List.lookup scope h with
    | none => bfsAux h fuel rest seen
    | some inherited =>
      if "*" ∈ inherited then some none
      else bfsAux h fuel (pushFresh rest seen inherited).1 (pushFresh rest seen inherited).2

/-- `ScopeHierarchy.expand_scopes` (unified_auth.py, lines 58-99): dedup the
user scopes, do the early wildcard check over the initial scopes, then run
the BFS; both the early check and the in-loop check short-circuit to the
singleton star set. -/
def expandScopes (h : List (String × List String)) (userScopes : List String) : List String :=
  if userScopes.dedup.any (fun scope =>
      match List.lookup scope h with
      | some ch => decide ("*" ∈ ch)
      | none => false) then ["*"]
  else
    match bfsAux h (unseenCount (hierarchyValues h) userScopes.dedup + userScopes.dedup.length)
        userScopes.dedup userScopes.dedup with
    | some (some out) => out
    | some none => ["*"]
    | none => []

/-- `ScopeHierarchy.validate_scope` (unified_auth.py, lines 101-109):
the required scope is granted when it is in the expanded set or the
expanded set holds the wildcard. -/
def validateScope (h : List (String × List String)) (userScopes : List String)
    (requiredScope : String) : Bool :=
  let expanded := expandScopes h userScopes
  decide (requiredScope ∈ expanded) || decide ("*" ∈ expanded)

/-- `AuthContext.has_scope` (unified_auth.py, lines 32-34): membership, or
the hard-coded grant-everything scope named admin. -/
def hasScope (scopes : List String) (scope : String) : Bool :=
  decide (scope ∈ scopes) || decide ("admin" ∈ scopes)

/-- Reachability through the configured hierarchy: a scope is reachable
from the user's scopes when it is one of them or is a configured child of
a reachable scope. -/
inductive Reaches (h : List (String × List String)) (S : List String) : String → Prop where
  | base {s : String} : s ∈ S → Reaches h S s
  | step {s c : String} {ch : List String} :
      Reaches h S s → List.lookup s h = some ch → c ∈ ch → Reaches h S c

/-- Some scope reachable from the user's scopes inherits the wildcard:
exactly the situation in which `expand_scopes` short-circuits. -/
def WildcardHit (h : List (String × List String)) (S : List String) : Prop :=
  ∃ y ch, Reaches h S y ∧ List.lookup y h = some ch ∧ "*" ∈ ch

/-- A scope whose configured children (if any) are all inside `t` and do
not include the wildcard; the BFS result is closed in this sense. -/
def closedAt (h : List (String × List String)) (t : List String) (x : String) : Prop :=
  ∀ ch, List.lookup x h = some ch → "*" ∉ ch ∧ ∀ c ∈ ch, c ∈ t

/-! ## Authentication manager (`security/unified_auth.py`) -/

/-- `AuthType` (unified_auth.py, lines 11-18). -/
inductive AuthType where
  | oauth2 | jwt | bearer | api_key | basic
deriving DecidableEq

/-- `AuthContext` (unified_auth.py, lines 21-30), with the fields the
authentication flow uses. -/
structure AuthContextM where
  user_id : String
  auth_type : AuthType
  scopes : List String
  expires_at : Option Int
  is_valid : Bool
deriving DecidableEq

/-- An HTTP request, reduced to its headers. -/
structure Request where
  headers : List (String × String)
deriving DecidableEq

/-- `request.headers.get(name)`. -/
def headerGet (req : Request) (name : String) : Option String :=
  List.lookup name req.headers

/-- The decoded claims of a JWT as `jwt.decode` returns them: the `sub`,
`user_id`, `scopes` and `exp` entries of the payload dict. -/
structure JwtPayload where
  sub : Option String
  user_id : Option String
  scopesField : Option (String ⊕ List String)
  exp : Option Int

/-- Python `a or b` on optional strings: an absent or empty left operand
falls through to the right. -/
def pyOrStr (a b : Option String) : Option String :=
  match a with
  | some s => if s = "" then b else some s
  | none => b

/-- Python `s.split()` for a space-separated scopes string. -/
def pySplitWs (s : String) : List String :=
  (s.splitOn " ").filter (fun t => !(t == ""))

/-- `JWTAuthProvider` configuration (unified_auth.py, lines 127-131). -/
structure JwtCfg where
  secret_key : String
  algorithm : Option String
  issuer : Option String

/-- `JWTAuthProvider.authenticate` (unified_auth.py, lines 133-165).  The
library call `jwt.decode` (signature, issuer and expiry validation) is the
oracle `jwtDecode`; `none` models a raised `InvalidTokenError`. -/
def jwtAuthenticate (jwtDecode : String → Option JwtPayload) (req : Request) :
    Option AuthContextM :=
  match headerGet req "Authorization" with
  | none => none
  | some ah =>
    if strStartsWith ah "Bearer " then
      match jwtDecode (strDrop ah 7) with
      | none => none
      | some payload =>
        match pyOrStr payload.sub payload.user_id with
        | none => none
        | some uid =>
          if uid = "" then none
          else
            let scopes := match payload.scopesField with
              | none => []
              | some (.inl s) => pySplitWs s
              | some (.inr l) => l
            some { user_id := uid, auth_type := .jwt, scopes := scopes,
                   expires_at := payload.exp, is_valid := true }
    else none

/-- One record of `valid_tokens` (unified_auth.py, lines 189-196): the
`user_id` and `scopes` entries are read with `dict.get` defaults. -/
structure BearerTokenData where
  user_id : Option String
  scopes : Option (List String)
deriving DecidableEq

/-- `BearerTokenAuthProvider` configuration (unified_auth.py, lines 175-178). -/
structure BearerCfg where
  token_validation_url : Option String
  valid_tokens : List (String × BearerTokenData)
deriving DecidableEq

/-- `BearerTokenAuthProvider.authenticate` (unified_auth.py, lines 180-202).
The external validation service call is the oracle `externalValidate`
(url, token); it models `_validate_token_externally`. -/
def bearerAuthenticate (externalValidate : String → String → Option AuthContextM)
    (cfg : BearerCfg) (req : Request) : Option AuthContextM :=
  match headerGet req "Authorization" with
  | none => none
  | some ah =>
    if strStartsWith ah "Bearer " then
      let token := strDrop ah 7
      match List.lookup token cfg.valid_tokens with
      | some td =>
          some { user_id := td.user_id.getD "unknown", auth_type := .bearer,
                 scopes := td.scopes.getD [], expires_at := none, is_valid := true }
      | none =>
          match cfg.token_validation_url with
          | some url => externalValidate url token
          | none => none
    else none

/-- One record of a `valid_keys` dict (unified_auth.py, lines 247-254). -/
structure ApiKeyData where
  user_id : Option String
  scopes : Option (List String)
deriving DecidableEq

/-- One entry of the template-format `keys` array (unified_auth.py, lines
349-360): a bare string, a record with a `key` entry, or anything else
(which the conversion skips). -/
inductive ApiKeyEntry where
  | plainKey (key : String)
  | recordKey (key : String) (user_id : Option String) (scopes : Option (List String))
  | otherEntry
deriving DecidableEq

/-- The `api_key` auth section (unified_auth.py, lines 335-365). -/
structure ApiKeyCfg where
  valid_keys : Option (List (String × ApiKeyData))
  keys : Option (List ApiKeyEntry)
  header_name : Option String
deriving DecidableEq

/-- The `valid_keys` normalization in `_initialize_providers`
(unified_auth.py, lines 338-360): an explicit `valid_keys` dict wins;
otherwise the `keys` array is converted, bare strings getting the default
`api_user` identity with `api:read`/`api:write` scopes and records getting
their own entries with `api:read` as the default scope list. -/
def buildValidKeys (cfg : ApiKeyCfg) : List (String × ApiKeyData) :=
  match cfg.valid_keys with
  | some vk => vk
  | none =>
    match cfg.keys with
    | some ks => ks.foldl (fun acc k =>
        match k with
        | .plainKey s =>
            acc ++ [(s, { user_id := some "api_user", scopes := some ["api:read", "api:write"] })]
        | .recordKey key uid sc =>
            acc ++ [(key, { user_id := some (uid.getD "api_user"),
                            scopes := some (sc.getD ["api:read"]) })]
        | .otherEntry => acc) []
    | none => []

/-- `APIKeyAuthProvider.authenticate` (unified_auth.py, lines 241-256):
look up the configured header (default X-API-Key), reject a missing or
empty value, then look the key up in `valid_keys`. -/
def apiKeyAuthenticate (cfg : ApiKeyCfg) (req : Request) : Option AuthContextM :=
  match headerGet req (cfg.header_name.getD "X-API-Key") with
  | none => none
  | some key =>
    if key = "" then none
    else
      match List.lookup key (buildValidKeys cfg) with
      | some kd =>
          some { user_id := kd.user_id.getD "api_user", auth_type := .api_key,
                 scopes := kd.scopes.getD [], expires_at := none, is_valid := true }
      | none => none

/-- An initialized authentication provider. -/
inductive Provider where
  | jwtP (cfg : JwtCfg)
  | bearerP (cfg : BearerCfg)
  | apiKeyP (cfg : ApiKeyCfg)

/-- The value of one key of the `auth:` config section. -/
inductive AuthTypeCfg where
  | jwtC (c : JwtCfg)
  | bearerC (c : BearerCfg)
  | apiKeyC (c : ApiKeyCfg)
  | otherC

/-- `UnifiedAuthenticationManager._initialize_providers` (unified_auth.py,
lines 295-366): only the FIRST auth type of the config is kept
(`auth_types` is the singleton dict of the primary type; the others are
logged and ignored), so at most one provider is ever initialized.  A
primary type other than jwt/bearer/api_key yields no provider. -/
def initializeProviders : List (String × AuthTypeCfg) → List Provider
  | [] => []
  | (primary, cfg) :: _ =>
    match primary, cfg with
    | "jwt", .jwtC c => [.jwtP c]
    | "bearer", .bearerC c => [.bearerP c]
    | "api_key", .apiKeyC c => [.apiKeyP c]
    | _, _ => []

/-- Dispatch on an initialized provider's `authenticate`. -/
def providerAuthenticate (jwtDecode : JwtCfg → String → Option JwtPayload)
    (externalValidate : String → String → Option AuthContextM) :
    Provider → Request → Option AuthContextM
  | .jwtP c, req => jwtAuthenticate (jwtDecode c) req
  | .bearerP c, req => bearerAuthenticate externalValidate c req
  | .apiKeyP c, req => apiKeyAuthenticate c req

/-- How `authenticate_request` fails: HTTP 401 with auth disabled, HTTP 401
with no provider accepting, or HTTP 403 for a missing required scope. -/
inductive AuthFailure where
  | authDisabled
  | unauthorized
  | forbidden (scope : String)
deriving DecidableEq

/-- The provider loop of `authenticate_request` (unified_auth.py, lines
378-416): providers are tried in order; the first returning a valid
context wins, its scopes are replaced by their hierarchy expansion, and
each required scope is validated (the first unsatisfied one raises 403,
which stops the loop); a provider returning nothing (or an invalid
context) falls through to the next; when none is left the request is
unauthenticated (401). -/
def authGo (jwtDecode : JwtCfg → String → Option JwtPayload)
    (externalValidate : String → String → Option AuthContextM)
    (hierarchy : List (String × List String)) (requiredScopes : List String) :
    List Provider → Request → Except AuthFailure AuthContextM
  | [], _ => .error .unauthorized
  | p :: ps, req =>
    match providerAuthenticate jwtDecode externalValidate p req with
    | some ctx =>
      if ctx.is_valid then
        let ctx' := { ctx with scopes := expandScopes hierarchy ctx.scopes }
        match requiredScopes.find? (fun s => !(validateScope hierarchy ctx'.scopes s)) with
        | some s => .error (.forbidden s)
        | none => .ok ctx'
      else authGo jwtDecode externalValidate hierarchy requiredScopes ps req
    | none => authGo jwtDecode externalValidate hierarchy requiredScopes ps req

/-- `UnifiedAuthenticationManager.authenticate_request` (unified_auth.py,
lines 372-416): with auth disabled every request is denied outright;
otherwise the provider loop runs. -/
def authenticateRequest (jwtDecode : JwtCfg → String → Option JwtPayload)
    (externalValidate : String → String → Option AuthContextM)
    (hierarchy : List (String × List String)) (authEnabled : Bool)
    (providers : List Provider) (requiredScopes : List String) (req : Request) :
    Except AuthFailure AuthContextM :=
  if authEnabled then
    authGo jwtDecode externalValidate hierarchy requiredScopes providers req
  else .error .authDisabled

/-! ## Lemmas about association lists and the BFS worklist -/

/-- A successful lookup comes from an entry of the list. -/
theorem lookup_mem {β : Type} {a : String} {b : β} :
    ∀ {l : List (String × β)}, List.lookup a l = some b → (a, b) ∈ l := by
  intro l
  induction l with
  | nil => intro hl; simp at hl
  | cons p tl ih =>
    intro hl
    rcases p with ⟨k, v⟩
    rw [List.lookup_cons] at hl
    split at hl
    · next heq =>
      cases hl
      have hak : a = k := by simpa using heq
      subst hak
      exact List.mem_cons_self _ _
    · exact List.mem_cons_of_mem _ (ih hl)

/-- Children delivered by a hierarchy lookup are hierarchy values. -/
theorem mem_hierarchyValues {h : List (String × List String)} {s : String}
    {ch : List String} {c : String} (hl : List.lookup s h = some ch) (hc : c ∈ ch) :
    c ∈ hierarchyValues h := by
  have hmem : (s, ch) ∈ h := lookup_mem hl
  have : ch ∈ h.map Prod.snd := List.mem_map_of_mem Prod.snd hmem
  exact List.mem_dedup.2 (List.mem_flatten.2 ⟨ch, this, hc⟩)

/-- Queue membership after pushing the fresh children. -/
theorem pushFresh_queue_mem :
    ∀ (inh q s : List String) (x : String),
      x ∈ (pushFresh q s inh).1 ↔ x ∈ q ∨ (x ∈ inh ∧ x ∉ s) := by
  intro inh
  induction inh with
  | nil => intro q s x; simp [pushFresh]
  | cons i tl ih =>
    intro q s x
    by_cases hi : i ∈ s
    · rw [pushFresh, if_pos hi, ih]
      constructor
      · rintro (hq | ⟨ht, hs⟩)
        · exact Or.inl hq
        · exact Or.inr ⟨List.mem_cons_of_mem _ ht, hs⟩
      · rintro (hq | ⟨hit, hs⟩)
        · exact Or.inl hq
        · rcases List.mem_cons.1 hit with rfl | ht
          · exact absurd hi hs
          · exact Or.inr ⟨ht, hs⟩
    · rw [pushFresh, if_neg hi, ih]
      constructor
      · rintro (hq | ⟨ht, hs⟩)
        · rcases List.mem_append.1 hq with hq | hq
          · exact Or.inl hq
          · have hxi : x = i := List.mem_singleton.1 hq
            subst hxi
            exact Or.inr ⟨List.mem_cons_self _ _, hi⟩
        · exact Or.inr ⟨List.mem_cons_of_mem _ ht,
            fun hmem => hs (List.mem_append.2 (Or.inl hmem))⟩
      · rintro (hq | ⟨hit, hs⟩)
        · exact Or.inl (List.mem_append.2 (Or.inl hq))
        · rcases List.mem_cons.1 hit with rfl | ht
          · exact Or.inl (List.mem_append.2 (Or.inr (List.mem_singleton.2 rfl)))
          · by_cases hxi : x = i
            · subst hxi
              exact Or.inl (List.mem_append.2 (Or.inr (List.mem_singleton.2 rfl)))
            · refine Or.inr ⟨ht, fun hmem => ?_⟩
              rcases List.mem_append.1 hmem with hmem | hmem
              · exact hs hmem
              · exact hxi (List.mem_singleton.1 hmem)

/-- Seen-set membership after pushing the fresh children. -/
theorem pushFresh_seen_mem :
    ∀ (inh q s : List String) (x : String),
      x ∈ (pushFresh q s inh).2 ↔ x ∈ s ∨ x ∈ inh := by
  intro inh
  induction inh with
  | nil => intro q s x; simp [pushFresh]
  | cons i tl ih =>
    intro q s x
    by_cases hi : i ∈ s
    · rw [pushFresh, if_pos hi, ih]
      constructor
      · rintro (hs | ht)
        · exact Or.inl hs
        · exact Or.inr (List.mem_cons_of_mem _ ht)
      · rintro (hs | hit)
        · exact Or.inl hs
        · rcases List.mem_cons.1 hit with rfl | ht
          · exact Or.inl hi
          · exact Or.inr ht
    · rw [pushFresh, if_neg hi, ih]
      simp only [List.mem_append, List.mem_singleton, List.mem_cons]
      tauto

/-- Pushing preserves the nodup property of the seen set. -/
theorem pushFresh_seen_nodup :
    ∀ (inh q s : List String), s.Nodup → (pushFresh q s inh).2.Nodup := by
  intro inh
  induction inh with
  | nil => intro q s hs; simpa [pushFresh] using hs
  | cons i tl ih =>
    intro q s hs
    by_cases hi : i ∈ s
    · rw [pushFresh, if_pos hi]; exact ih _ _ hs
    · rw [pushFresh, if_neg hi]
      exact ih _ _ (by simp [List.nodup_append, hs, hi, List.disjoint_singleton])

/-- Pushing preserves the nodup property of the queue when the queue sits
inside the seen set. -/
theorem pushFresh_queue_nodup :
    ∀ (inh q s : List String), q.Nodup → (∀ x ∈ q, x ∈ s) →
      (pushFresh q s inh).1.Nodup := by
  intro inh
  induction inh with
  | nil => intro q s hq _; simpa [pushFresh] using hq
  | cons i tl ih =>
    intro q s hq hqs
    by_cases hi : i ∈ s
    · rw [pushFresh, if_pos hi]; exact ih _ _ hq hqs
    · rw [pushFresh, if_neg hi]
      refine ih _ _ ?_ ?_
      · have hiq : i ∉ q := fun hmem => hi (hqs _ hmem)
        simp [List.nodup_append, hq, hiq, List.disjoint_singleton]
      · intro x hx
        rcases List.mem_append.1 hx with hx | hx
        · exact List.mem_append.2 (Or.inl (hqs _ hx))
        · exact List.mem_append.2 (Or.inr hx)

/-- Pushing keeps the queue inside the seen set. -/
theorem pushFresh_queue_subset_seen {inh q s : List String}
    (hqs : ∀ x ∈ q, x ∈ s) :
    ∀ x ∈ (pushFresh q s inh).1, x ∈ (pushFresh q s inh).2 := by
  intro x hx
  rcases (pushFresh_queue_mem inh q s x).1 hx with hq | ⟨ht, _⟩
  · exact (pushFresh_seen_mem inh q s x).2 (Or.inl (hqs _ hq))
  · exact (pushFresh_seen_mem inh q s x).2 (Or.inr ht)

/-- Pushing children that are all already seen changes nothing. -/
theorem pushFresh_noop :
    ∀ (inh q s : List String), (∀ i ∈ inh, i ∈ s) → pushFresh q s inh = (q, s) := by
  intro inh
  induction inh with
  | nil => intro q s _; rfl
  | cons i tl ih =>
    intro q s hall
    rw [pushFresh, if_pos (hall i (List.mem_cons_self _ _))]
    exact ih _ _ fun j hj => hall j (List.mem_cons_of_mem _ hj)

/-- Enlarging the seen set with one fresh candidate strictly shrinks the
count of unseen candidates. -/
theorem unseenCount_append_lt {cands s : List String} {i : String}
    (hic : i ∈ cands) (his : i ∉ s) :
    unseenCount cands (s ++ [i]) < unseenCount cands s := by
  unfold unseenCount
  have hmono : List.Sublist (cands.filter (fun c => decide (c ∉ s ++ [i])))
      (cands.filter (fun c => decide (c ∉ s))) := by
    refine List.monotone_filter_right cands ?_
    intro a ha
    simp only [decide_eq_true_eq] at ha ⊢
    exact fun hmem => ha (List.mem_append.2 (Or.inl hmem))
  refine Nat.lt_of_le_of_ne hmono.length_le ?_
  intro heq
  have hlists := hmono.eq_of_length heq
  have hi2 : i ∈ cands.filter (fun c => decide (c ∉ s)) := by
    simp [List.mem_filter, hic, his]
  rw [← hlists] at hi2
  have hi3 : i ∉ s ++ [i] := by
    simp only [List.mem_filter, decide_eq_true_eq] at hi2
    exact hi2.2
  exact hi3 (List.mem_append.2 (Or.inr (List.mem_singleton.2 rfl)))

/-- Enlarging the seen set never increases the count of unseen candidates. -/
theorem unseenCount_append_le (cands s : List String) (i : String) :
    unseenCount cands (s ++ [i]) ≤ unseenCount cands s := by
  unfold unseenCount
  refine List.Sublist.length_le (List.monotone_filter_right cands ?_)
  intro a ha
  simp only [decide_eq_true_eq] at ha ⊢
  exact fun hmem => ha (List.mem_append.2 (Or.inl hmem))

/-- Pushing fresh children does not increase the BFS measure
(unseen candidates plus queue length). -/
theorem pushFresh_measure (cands : List String) :
    ∀ (inh q s : List String), (∀ i ∈ inh, i ∈ cands) →
      unseenCount cands (pushFresh q s inh).2 + (pushFresh q s inh).1.length ≤
        unseenCount cands s + q.length := by
  intro inh
  induction inh with
  | nil => intro q s _; simp [pushFresh]
  | cons i tl ih =>
    intro q s hall
    by_cases hi : i ∈ s
    · rw [pushFresh, if_pos hi]
      exact ih _ _ fun j hj => hall j (List.mem_cons_of_mem _ hj)
    · rw [pushFresh, if_neg hi]
      have hstep := ih (q ++ [i]) (s ++ [i]) fun j hj => hall j (List.mem_cons_of_mem _ hj)
      have hlt : unseenCount cands (s ++ [i]) < unseenCount cands s :=
        unseenCount_append_lt (hall i (List.mem_cons_self _ _)) hi
      calc unseenCount cands (pushFresh (q ++ [i]) (s ++ [i]) tl).2 +
              (pushFresh (q ++ [i]) (s ++ [i]) tl).1.length
        ≤ unseenCount cands (s ++ [i]) + (q ++ [i]).length := hstep
      _ ≤ unseenCount cands s + q.length := by
          simp only [List.length_append, List.length_singleton]
          omega

/-- The fuel chosen by `expandScopes` cannot run out: the BFS measure
bounds the remaining iterations. -/
theorem bfsAux_fuelEnough {h : List (String × List String)} :
    ∀ (fuel : Nat) (q s : List String),
      unseenCount (hierarchyValues h) s + q.length ≤ fuel →
      bfsAux h fuel q s ≠ none := by
  intro fuel
  induction fuel with
  | zero =>
    intro q s hle
    have hq : q = [] := by
      cases q with
      | nil => rfl
      | cons a tl => simp [List.length_cons] at hle
    subst hq
    simp [bfsAux]
  | succ fuel ih =>
    intro q s hle
    cases q with
    | nil => simp [bfsAux]
    | cons scope rest =>
      rw [bfsAux]
      cases hl : List.lookup scope h with
      | none =>
        refine ih rest s ?_
        simp only [List.length_cons] at hle
        omega
      | some inherited =>
        by_cases hstar : "*" ∈ inherited
        · simp [hstar]
        · simp only [hstar, if_false, if_neg]
          refine ih _ _ ?_
          have hsub : ∀ i ∈ inherited, i ∈ hierarchyValues h :=
            fun i hi => mem_hierarchyValues hl hi
          have := pushFresh_measure (hierarchyValues h) inherited rest s hsub
          simp only [List.length_cons] at hle
          omega

/-- Everything reachable from a seed set contained in a closed set lies in
that closed set. -/
theorem reaches_mem_of_closed {h : List (String × List String)}
    {out S : List String} (hS : ∀ x ∈ S, x ∈ out)
    (hcl : ∀ x ∈ out, closedAt h out x) :
    ∀ x, Reaches h S x → x ∈ out := by
  intro x hx
  induction hx with
  | base hs => exact hS _ hs
  | step hr hl hc ih => exact ((hcl _ ih _ hl).2) _ hc

/-- A successful BFS run extends the seen set to a nodup, closed set whose
extra elements are reachable from the seen set. -/
theorem bfsAux_some_spec {h : List (String × List String)} :
    ∀ (fuel : Nat) (q s out : List String),
      bfsAux h fuel q s = some (some out) →
      q.Nodup → (∀ x ∈ q, x ∈ s) → s.Nodup →
      (∀ x ∈ s, x ∉ q → closedAt h s x) →
      (∀ x ∈ s, x ∈ out) ∧ out.Nodup ∧ (∀ x ∈ out, closedAt h out x) ∧
        (∀ (T : List String), (∀ x ∈ s, Reaches h T x) → ∀ x ∈ out, Reaches h T x) := by
  intro fuel
  induction fuel with
  | zero =>
    intro q s out hbfs hqn hqs hsn hcl
    cases q with
    | nil =>
      simp only [bfsAux, Option.some.injEq] at hbfs
      subst hbfs
      exact ⟨fun x hx => hx, hsn,
        fun x hx => hcl x hx (List.not_mem_nil x), fun T hT => hT⟩
    | cons a tl => simp [bfsAux] at hbfs
  | succ fuel ih =>
    intro q s out hbfs hqn hqs hsn hcl
    cases q with
    | nil =>
      simp only [bfsAux, Option.some.injEq] at hbfs
      subst hbfs
      exact ⟨fun x hx => hx, hsn,
        fun x hx => hcl x hx (List.not_mem_nil x), fun T hT => hT⟩
    | cons scope rest =>
      rw [bfsAux] at hbfs
      cases hl : List.lookup scope h with
      | none =>
        rw [hl] at hbfs
        refine ih rest s out hbfs hqn.of_cons
          (fun x hx => hqs x (List.mem_cons_of_mem _ hx)) hsn ?_
        intro x hx hxr
        by_cases hxscope : x = scope
        · subst hxscope
          intro ch hch
          rw [hl] at hch
          cases hch
        · refine hcl x hx ?_
          intro hxq
          rcases List.mem_cons.1 hxq with h' | h'
          · exact hxscope h'
          · exact hxr h'
      | some inherited =>
        rw [hl] at hbfs
        replace hbfs : (if "*" ∈ inherited then some none
            else bfsAux h fuel (pushFresh rest s inherited).1
              (pushFresh rest s inherited).2) = some (some out) := hbfs
        by_cases hstar : "*" ∈ inherited
        · rw [if_pos hstar] at hbfs
          cases hbfs
        · rw [if_neg hstar] at hbfs
          have hrestsub : ∀ x ∈ rest, x ∈ s :=
            fun x hx => hqs x (List.mem_cons_of_mem _ hx)
          have hq1 : (pushFresh rest s inherited).1.Nodup :=
            pushFresh_queue_nodup inherited rest s hqn.of_cons hrestsub
          have hq2 : ∀ x ∈ (pushFresh rest s inherited).1, x ∈ (pushFresh rest s inherited).2 :=
            pushFresh_queue_subset_seen hrestsub
          have hs2 : (pushFresh rest s inherited).2.Nodup :=
            pushFresh_seen_nodup inherited rest s hsn
          have hcl2 : ∀ x ∈ (pushFresh rest s inherited).2,
              x ∉ (pushFresh rest s inherited).1 → closedAt h (pushFresh rest s inherited).2 x := by
            intro x hx hxp
            by_cases hxs : x ∈ s
            · by_cases hxscope : x = scope
              · subst hxscope
                intro ch hch
                rw [hl] at hch
                injection hch with hch
                subst hch
                exact ⟨hstar, fun c hc => (pushFresh_seen_mem inherited rest s c).2 (Or.inr hc)⟩
              · have hxrest : x ∉ rest := fun hr =>
                  hxp ((pushFresh_queue_mem inherited rest s x).2 (Or.inl hr))
                have hxq : x ∉ scope :: rest := by
                  intro hxq
                  rcases List.mem_cons.1 hxq with h' | h'
                  · exact hxscope h'
                  · exact hxrest h'
                intro ch hch
                obtain ⟨h1, h2⟩ := hcl x hxs hxq ch hch
                exact ⟨h1, fun c hc =>
                  (pushFresh_seen_mem inherited rest s c).2 (Or.inl (h2 c hc))⟩
            · have hxi : x ∈ inherited := by
                rcases (pushFresh_seen_mem inherited rest s x).1 hx with h' | h'
                · exact absurd h' hxs
                · exact h'
              exact absurd ((pushFresh_queue_mem inherited rest s x).2 (Or.inr ⟨hxi, hxs⟩)) hxp
          obtain ⟨hsub, hnd, hclo, hsound⟩ := ih _ _ out hbfs hq1 hq2 hs2 hcl2
          refine ⟨?_, hnd, hclo, ?_⟩
          · intro x hx
            exact hsub x ((pushFresh_seen_mem inherited rest s x).2 (Or.inl hx))
          · intro T hT x hx
            refine hsound T ?_ x hx
            intro y hy
            rcases (pushFresh_seen_mem inherited rest s y).1 hy with hys | hyi
            · exact hT y hys
            · exact Reaches.step (hT scope (hqs scope (List.mem_cons_self _ _))) hl hyi

/-- A BFS run that short-circuits on the wildcard has found a reachable
scope inheriting the wildcard. -/
theorem bfsAux_none_spec {h : List (String × List String)} :
    ∀ (fuel : Nat) (q s : List String),
      bfsAux h fuel q s = some none →
      ∀ (T : List String), (∀ x ∈ q, Reaches h T x) → WildcardHit h T := by
  intro fuel
  induction fuel with
  | zero =>
    intro q s hbfs T hT
    cases q with
    | nil => simp [bfsAux] at hbfs
    | cons a tl => simp [bfsAux] at hbfs
  | succ fuel ih =>
    intro q s hbfs T hT
    cases q with
    | nil => simp [bfsAux] at hbfs
    | cons scope rest =>
      rw [bfsAux] at hbfs
      cases hl : List.lookup scope h with
      | none =>
        rw [hl] at hbfs
        exact ih rest s hbfs T (fun x hx => hT x (List.mem_cons_of_mem _ hx))
      | some inherited =>
        rw [hl] at hbfs
        replace hbfs : (if "*" ∈ inherited then some none
            else bfsAux h fuel (pushFresh rest s inherited).1
              (pushFresh rest s inherited).2) = some none := hbfs
        by_cases hstar : "*" ∈ inherited
        · exact ⟨scope, inherited, hT scope (List.mem_cons_self _ _), hl, hstar⟩
        · rw [if_neg hstar] at hbfs
          refine ih _ _ hbfs T ?_
          intro x hx
          rcases (pushFresh_queue_mem inherited rest s x).1 hx with hr | ⟨hi, _⟩
          · exact hT x (List.mem_cons_of_mem _ hr)
          · exact Reaches.step (hT scope (List.mem_cons_self _ _)) hl hi

/-- A BFS run whose whole queue is already closed in the seen set returns
the seen set unchanged. -/
theorem bfsAux_stall {h : List (String × List String)} :
    ∀ (q : List String) (fuel : Nat) (s : List String),
      q.length ≤ fuel →
      (∀ x ∈ q, closedAt h s x) →
      bfsAux h fuel q s = some (some s) := by
  intro q
  induction q with
  | nil =>
    intro fuel s _ _
    cases fuel <;> simp [bfsAux]
  | cons scope rest ih =>
    intro fuel s hle hcl
    cases fuel with
    | zero => simp at hle
    | succ fuel =>
      rw [bfsAux]
      cases hl : List.lookup scope h with
      | none =>
        refine ih fuel s ?_ fun x hx => hcl x (List.mem_cons_of_mem _ hx)
        simp only [List.length_cons] at hle
        omega
      | some inherited =>
        obtain ⟨hstar, hsub⟩ := hcl scope (List.mem_cons_self _ _) inherited hl
        show (if "*" ∈ inherited then some none
            else bfsAux h fuel (pushFresh rest s inherited).1
              (pushFresh rest s inherited).2) = some (some s)
        rw [if_neg hstar, pushFresh_noop inherited rest s hsub]
        refine ih fuel s ?_ fun x hx => hcl x (List.mem_cons_of_mem _ hx)
        simp only [List.length_cons] at hle
        omega

/-- A positive early wildcard check means a user scope inherits the
wildcard directly. -/
theorem wildcardHit_of_early {h : List (String × List String)} {S : List String}
    (hearly : S.dedup.any (fun scope =>
      match List.lookup scope h with
      | some ch => decide ("*" ∈ ch)
      | none => false) = true) : WildcardHit h S := by
  obtain ⟨scope, hmem, hsc⟩ := List.any_eq_true.1 hearly
  cases hl : List.lookup scope h with
  | none => rw [hl] at hsc; cases hsc
  | some ch =>
    rw [hl] at hsc
    exact ⟨scope, ch, Reaches.base (List.mem_dedup.1 hmem), hl, by simpa using hsc⟩

/-- When some reachable scope inherits the wildcard, `expand_scopes`
short-circuits to the singleton star set. -/
theorem expandScopes_eq_star_of_wildcardHit (h : List (String × List String))
    (S : List String) (hw : WildcardHit h S) : expandScopes h S = ["*"] := by
  unfold expandScopes
  by_cases hearly : S.dedup.any (fun scope =>
      match List.lookup scope h with
      | some ch => decide ("*" ∈ ch)
      | none => false) = true
  · rw [if_pos hearly]
  · rw [if_neg hearly]
    cases hbfs : bfsAux h (unseenCount (hierarchyValues h) S.dedup + S.dedup.length)
        S.dedup S.dedup with
    | none => exact absurd hbfs (bfsAux_fuelEnough _ _ _ le_rfl)
    | some r =>
      cases r with
      | none => rfl
      | some out =>
        exfalso
        obtain ⟨hsub, _, hclo, _⟩ := bfsAux_some_spec _ _ _ _ hbfs (List.nodup_dedup S)
          (fun x hx => hx) (List.nodup_dedup S) (fun x hx hnx => absurd hx hnx)
        obtain ⟨y, ch, hr, hl, hstar⟩ := hw
        have hy : y ∈ out :=
          reaches_mem_of_closed (fun x hx => hsub x (List.mem_dedup.2 hx)) hclo y hr
        exact (hclo y hy ch hl).1 hstar

/-- Without a wildcard hit, `expand_scopes` is the normal return value of
the BFS. -/
theorem expandScopes_no_hit {h : List (String × List String)} {S : List String}
    (hw : ¬ WildcardHit h S) :
    bfsAux h (unseenCount (hierarchyValues h) S.dedup + S.dedup.length) S.dedup S.dedup =
      some (some (expandScopes h S)) := by
  have hearly : ¬ (S.dedup.any (fun scope =>
      match List.lookup scope h with
      | some ch => decide ("*" ∈ ch)
      | none => false) = true) := fun he => hw (wildcardHit_of_early he)
  unfold expandScopes
  rw [if_neg hearly]
  cases hbfs : bfsAux h (unseenCount (hierarchyValues h) S.dedup + S.dedup.length)
      S.dedup S.dedup with
  | none => exact absurd hbfs (bfsAux_fuelEnough _ _ _ le_rfl)
  | some r =>
    cases r with
    | none =>
      exact absurd (bfsAux_none_spec _ _ _ hbfs S
        (fun x hx => Reaches.base (List.mem_dedup.1 hx))) hw
    | some out => rfl

/-- The central characterization of `expand_scopes`: either a reachable
scope inherits the wildcard and the result is the singleton star set, or
the result is exactly the set of scopes reachable through the configured
hierarchy, without duplicates and closed under the configured edges. -/
theorem expandScopes_spec (h : List (String × List String)) (S : List String) :
    (WildcardHit h S ∧ expandScopes h S = ["*"]) ∨
    (¬ WildcardHit h S ∧ (expandScopes h S).Nodup ∧
      (∀ x ∈ expandScopes h S, closedAt h (expandScopes h S) x) ∧
      (∀ x, x ∈ expandScopes h S ↔ Reaches h S x)) := by
  by_cases hw : WildcardHit h S
  · exact Or.inl ⟨hw, expandScopes_eq_star_of_wildcardHit h S hw⟩
  · have hbfs := expandScopes_no_hit hw
    obtain ⟨hsub, hnd, hclo, hsound⟩ := bfsAux_some_spec _ _ _ _ hbfs (List.nodup_dedup S)
      (fun x hx => hx) (List.nodup_dedup S) (fun x hx hnx => absurd hx hnx)
    refine Or.inr ⟨hw, hnd, hclo, ?_⟩
    intro x
    constructor
    · intro hx
      exact hsound S (fun y hy => Reaches.base (List.mem_dedup.1 hy)) x hx
    · intro hx
      exact reaches_mem_of_closed (fun y hy => hsub y (List.mem_dedup.2 hy)) hclo x hx

/-- When the wildcard is not itself a hierarchy parent, expanding the
singleton star set returns it unchanged. -/
theorem expandScopes_star_fixed {h : List (String × List String)}
    (hw : List.lookup "*" h = none) : expandScopes h ["*"] = ["*"] := by
  unfold expandScopes
  have hd : (["*"] : List String).dedup = ["*"] := by simp
  rw [hd]
  have hearly : (["*"] : List String).any (fun scope =>
      match List.lookup scope h with
      | some ch => decide ("*" ∈ ch)
      | none => false) = false := by
    simp [hw]
  rw [hearly]
  simp only [Bool.false_eq_true, if_false]
  have hstall : bfsAux h (unseenCount (hierarchyValues h) ["*"] + (["*"] : List String).length)
      ["*"] ["*"] = some (some ["*"]) := by
    refine bfsAux_stall ["*"] _ ["*"] (by simp) ?_
    intro x hx ch hch
    have hxe : x = "*" := List.mem_singleton.1 hx
    subst hxe
    rw [hw] at hch
    cases hch
  rw [hstall]

/-- Expanding a set that is already nodup and closed under the hierarchy
returns it unchanged. -/
theorem expandScopes_closed_fixed {h : List (String × List String)} {out : List String}
    (hnd : out.Nodup) (hclo : ∀ x ∈ out, closedAt h out x) :
    expandScopes h out = out := by
  unfold expandScopes
  have hd : out.dedup = out := List.dedup_eq_self.2 hnd
  rw [hd]
  have hearly : out.any (fun scope =>
      match List.lookup scope h with
      | some ch => decide ("*" ∈ ch)
      | none => false) = false := by
    rw [List.any_eq_false]
    intro scope hscope
    cases hl : List.lookup scope h with
    | none => simp
    | some ch => simp [(hclo scope hscope ch hl).1]
  rw [hearly]
  simp only [Bool.false_eq_true, if_false]
  rw [bfsAux_stall out _ out (Nat.le_add_left _ _) hclo]

/-! ## Claim C8: idempotence and wildcard absorption of scope expansion -/

/-- C8 (counterexample).  As stated, idempotence fails for a hierarchy
that maps the wildcard itself as a parent: with parent p inheriting the
wildcard and the wildcard inheriting a, expanding the scope list
containing only p short-circuits to the singleton star set, but expanding
that result again also pulls in a. -/
theorem scope_expansion_idem_counterexample :
    "a" ∈ expandScopes [("p", ["*"]), ("*", ["a"])]
        (expandScopes [("p", ["*"]), ("*", ["a"])] ["p"]) ∧
    "a" ∉ expandScopes [("p", ["*"]), ("*", ["a"])] ["p"] ∧
    expandScopes [("p", ["*"]), ("*", ["a"])]
        (expandScopes [("p", ["*"]), ("*", ["a"])] ["p"]) ≠
      expandScopes [("p", ["*"]), ("*", ["a"])] ["p"] := by
  decide

/-- C8 (amended).  For every hierarchy in which the wildcard is not
itself a parent key, scope expansion is idempotent; and whenever a scope
reachable from the user's scopes inherits the wildcard (in particular,
for `expand(S + p) where p -> [*]`), expansion short-circuits to the
all-scopes-granted singleton star set.  The BFS is embedded as a total
function, so cycles in the hierarchy terminate by construction (the
visited set argument is the `bfsAux_fuelEnough` bound). -/
theorem scope_expansion_idem_amended (h : List (String × List String)) (S : List String) :
    (List.lookup "*" h = none →
      expandScopes h (expandScopes h S) = expandScopes h S) ∧
    (∀ y ch, Reaches h S y → List.lookup y h = some ch → "*" ∈ ch →
      expandScopes h S = ["*"]) := by
  constructor
  · intro hw
    rcases expandScopes_spec h S with ⟨_, heq⟩ | ⟨_, hnd, hclo, _⟩
    · rw [heq]
      exact expandScopes_star_fixed hw
    · exact expandScopes_closed_fixed hnd hclo
  · intro y ch hr hl hstar
    exact expandScopes_eq_star_of_wildcardHit h S ⟨y, ch, hr, hl, hstar⟩

/-- C8 (witness): idempotence on a concrete two-level hierarchy, and the
wildcard short-circuit on a concrete wildcard-inheriting scope. -/
theorem scope_expansion_idem_witness :
    expandScopes [("files", ["files:read", "files:write"])]
        (expandScopes [("files", ["files:read", "files:write"])] ["files"]) =
      expandScopes [("files", ["files:read", "files:write"])] ["files"] ∧
    expandScopes [("root", ["*"])] ["root"] = ["*"] := by
  constructor
  · exact (scope_expansion_idem_amended [("files", ["files:read", "files:write"])] ["files"]).1 rfl
  · exact (scope_expansion_idem_amended [("root", ["*"])] ["root"]).2 "root" ["*"]
      (Reaches.base (List.mem_singleton.2 rfl)) rfl (List.mem_singleton.2 rfl)

/-! ## Claim C2: scope grants come only from the configured hierarchy -/

/-- C2 (counterexample).  `AuthContext.has_scope` hard-codes the scope
named admin: a context holding only admin is granted every scope, even
though with an empty hierarchy nothing beyond the scopes themselves is
reachable — the code's own expansion and validation agree that the scope
is not granted. -/
theorem scope_inheritance_config_only_counterexample :
    hasScope ["admin"] "files:write" = true ∧
    validateScope [] ["admin"] "files:write" = false ∧
    expandScopes [] ["admin"] = ["admin"] := by
  decide

/-- C2 (amended).  `ScopeHierarchy.validate_scope` grants a required scope
exactly when it is one of the user's scopes or reachable from them
through configured parent-to-children edges, or the configured wildcard is
so reachable; but `AuthContext.has_scope` additionally hard-codes the
scope named admin, granting every scope to any context holding it,
independent of the configuration. -/
theorem scope_inheritance_config_only_amended :
    (∀ (h : List (String × List String)) (S : List String) (r : String),
      validateScope h S r = true ↔ Reaches h S r ∨ Reaches h S "*") ∧
    (∀ (scopes : List String) (r : String),
      hasScope scopes r = true ↔ r ∈ scopes ∨ "admin" ∈ scopes) := by
  constructor
  · intro h S r
    unfold validateScope
    rcases expandScopes_spec h S with ⟨hw, heq⟩ | ⟨_, _, _, hmem⟩
    · rw [heq]
      constructor
      · intro _
        obtain ⟨y, ch, hr, hl, hstar⟩ := hw
        exact Or.inr (Reaches.step hr hl hstar)
      · intro _
        rw [Bool.or_eq_true]
        exact Or.inr (decide_eq_true (List.mem_singleton.2 rfl))
    · simp only [Bool.or_eq_true, decide_eq_true_eq, hmem]
  · intro scopes r
    unfold hasScope
    simp only [Bool.or_eq_true, decide_eq_true_eq]

/-- C2 (witness): a configured child scope validates through the
hierarchy on a concrete configuration. -/
theorem scope_inheritance_config_only_witness :
    validateScope [("files", ["files:read"])] ["files"] "files:read" = true :=
  (scope_inheritance_config_only_amended.1 [("files", ["files:read"])] ["files"] "files:read").2
    (Or.inl (Reaches.step (Reaches.base (List.mem_singleton.2 rfl)) rfl
      (List.mem_singleton.2 rfl)))

/-! ## Claim C1: MCP tools are registered iff scope-configured -/

/-- C1 (counterexample).  Registration is fail closed but the if-and-only-if
direction fails: the `ValueError` for the first unconfigured tool is caught
by the `except` wrapping the whole registration loop, so a later tool is
not registered even though it has an explicit `tool_scopes` entry. -/
theorem mcp_registration_counterexample :
    registerMcpToolsWithScopes (mergedToolScopes [⟨[("s:t2", ["files:read"])]⟩])
        [⟨"t1", "s"⟩, ⟨"t2", "s"⟩] = [] ∧
    hasScopeEntry (mergedToolScopes [⟨[("s:t2", ["files:read"])]⟩]) ⟨"t2", "s"⟩ = true ∧
    registerMcpToolsAsCapabilities (mergedToolScopes [⟨[("s:t2", ["files:read"])]⟩])
        [⟨"t1", "s"⟩, ⟨"t2", "s"⟩] = [] := by
  decide

/-- C1 (amended).  Both registration paths register exactly the longest
prefix of the tool list in which every tool has an explicit entry in the
merged `tool_scopes` configuration under its prefixed name: an entry is
required for registration (fail closed, never defaulting to empty scopes),
and the first missing entry additionally aborts registration of every
later tool, entry or not. -/
theorem mcp_registration_amended (toolScopes : String → Option (List String))
    (tools : List McpToolInfo) :
    registerMcpToolsWithScopes toolScopes tools =
      (tools.takeWhile (hasScopeEntry toolScopes)).map (fun t =>
        { name := replaceChar t.name ':' '_', originalName := t.name,
          requiredScopes := (toolScopes (t.server ++ ":" ++ t.name)).getD [] }) ∧
    registerMcpToolsAsCapabilities toolScopes tools =
      (tools.takeWhile (hasScopeEntry toolScopes)).map (fun t =>
        { capabilityName := replaceChar t.name '-' '_',
          requiredScopes := (toolScopes (t.server ++ ":" ++ t.name)).getD [] }) := by
  constructor
  · induction tools with
    | nil => rfl
    | cons t rest ih =>
      cases hts : toolScopes (t.server ++ ":" ++ t.name) with
      | none =>
        simp [registerMcpToolsWithScopes, getRequiredScopesForTool, hts,
          List.takeWhile_cons, hasScopeEntry]
      | some scopes =>
        simp [registerMcpToolsWithScopes, getRequiredScopesForTool, hts,
          List.takeWhile_cons, hasScopeEntry, ih]
  · induction tools with
    | nil => rfl
    | cons t rest ih =>
      cases hts : toolScopes (t.server ++ ":" ++ t.name) with
      | none =>
        simp [registerMcpToolsAsCapabilities, getRequiredScopesForTool, hts,
          List.takeWhile_cons, hasScopeEntry]
      | some scopes =>
        simp [registerMcpToolsAsCapabilities, getRequiredScopesForTool, hts,
          List.takeWhile_cons, hasScopeEntry, ih]

/-! ## Claim C9: TTL expiry of state variables -/

/-- Replacing the entry of a present key makes lookup return the
replacement. -/
theorem lookup_map_replace (key : String) (v2 : StateVariable) :
    ∀ (l : List (String × StateVariable)),
      (List.lookup key l).isSome →
      List.lookup key (l.map (fun p => if p.1 = key then (key, v2) else p)) = some v2 := by
  intro l
  induction l with
  | nil => intro hl; simp at hl
  | cons p tl ih =>
    intro hl
    rcases p with ⟨k, w⟩
    by_cases hk : k = key
    · subst hk
      simp [List.lookup_cons]
    · have hbeq : (key == k) = false := by
        simp [Ne.symm hk]
      simp only [List.map_cons, if_neg hk, List.lookup_cons, hbeq] at hl ⊢
      exact ih hl

/-- Appending a new entry for an absent key makes lookup return it. -/
theorem lookup_append_new (key : String) (v2 : StateVariable) :
    ∀ (l : List (String × StateVariable)),
      List.lookup key l = none →
      List.lookup key (l ++ [(key, v2)]) = some v2 := by
  intro l
  induction l with
  | nil => intro _; simp [List.lookup_cons]
  | cons p tl ih =>
    intro hl
    rcases p with ⟨k, w⟩
    rw [List.lookup_cons] at hl
    cases hbeq : (key == k) with
    | true => rw [hbeq] at hl; cases hl
    | false =>
      rw [hbeq] at hl
      rw [List.cons_append, List.lookup_cons, hbeq]
      exact ih hl

/-- Filtering a key out of the state makes its lookup fail. -/
theorem lookup_filter_self (key : String) :
    ∀ (l : List (String × StateVariable)),
      List.lookup key (l.filter (fun p => !(p.1 == key))) = none := by
  intro l
  induction l with
  | nil => rfl
  | cons p tl ih =>
    rcases p with ⟨k, w⟩
    by_cases hk : k = key
    · subst hk
      simp only [List.filter_cons, beq_self_eq_true, Bool.not_true, Bool.false_eq_true,
        if_false]
      exact ih
    · have hbeq : (k == key) = false := by simp [hk]
      have hbeq2 : (key == k) = false := by simp [Ne.symm hk]
      simp only [List.filter_cons, hbeq, Bool.not_false, if_true, List.lookup_cons, hbeq2]
      exact ih

/-- The variable stored by `set_variable` with a TTL: whatever branch ran,
its value is the written value, its `updated_at` is the write time and its
ttl is the given TTL. -/
theorem setVariable_lookup {now0 : Int} {st : ConversationVariables} {key : String}
    {value : PyValue} {t : Int} {st2 : ConversationVariables}
    (hset : setVariable now0 st key value (some t) = .ok st2) :
    ∃ v, List.lookup key st2.vars = some v ∧
      v.value = value ∧ v.updated_at = now0 ∧ v.ttl = some t := by
  unfold setVariable at hset
  split at hset
  · cases hset
  · cases hlook : List.lookup key st.vars with
    | some v =>
      rw [hlook] at hset
      injection hset with hst
      subst hst
      refine ⟨_, lookup_map_replace key _ st.vars (by rw [hlook]; rfl), rfl, rfl, rfl⟩
    | none =>
      rw [hlook] at hset
      injection hset with hst
      subst hst
      exact ⟨_, lookup_append_new key _ st.vars hlook, rfl, rfl, rfl⟩

/-- C9 (confirmed).  For a variable written with a positive TTL, a read
strictly after `updated_at + ttl` returns the caller's default and removes
the variable from the state (its key no longer resolves), while a read at
or before `updated_at + ttl` returns the stored value and leaves the state
unchanged. -/
theorem state_ttl_reads (st : ConversationVariables) (key : String)
    (value dflt : PyValue) (t now0 now : Int) (st2 : ConversationVariables)
    (hset : setVariable now0 st key value (some t) = .ok st2) (ht : 0 < t) :
    (now > now0 + t →
      (getVariable now st2 key dflt).1 = dflt ∧
      List.lookup key (getVariable now st2 key dflt).2.vars = none) ∧
    (now ≤ now0 + t → getVariable now st2 key dflt = (value, st2)) := by
  obtain ⟨v, hlook, hval, hupd, httl⟩ := setVariable_lookup hset
  have hne : ¬ (t = 0) := by omega
  have hexp : v.isExpired now = decide (now > now0 + t) := by
    simp only [StateVariable.isExpired, httl, hupd]
    rw [if_neg hne]
  constructor
  · intro hgt
    constructor
    · simp only [getVariable, hlook, hexp, decide_eq_true hgt, if_true]
    · simp only [getVariable, hlook, hexp, decide_eq_true hgt, if_true]
      exact lookup_filter_self key st2.vars
  · intro hle
    have hnotgt : ¬ (now > now0 + t) := by omega
    simp only [getVariable, hlook, hexp, decide_eq_false hnotgt, Bool.false_eq_true, if_false]
    rw [hval]

/-- C9 (witness): a variable written at time 0 with TTL 60 reads back its
value at time 60 and reads the default (with the key collected) at
time 61. -/
theorem state_ttl_reads_witness :
    (getVariable 61 ⟨[("k", ⟨"k", .vStr "v", 0, 0, some 60, 1⟩)], 1000⟩ "k" .vNone).1 =
      .vNone ∧
    getVariable 60 ⟨[("k", ⟨"k", .vStr "v", 0, 0, some 60, 1⟩)], 1000⟩ "k" .vNone =
      (.vStr "v", ⟨[("k", ⟨"k", .vStr "v", 0, 0, some 60, 1⟩)], 1000⟩) := by
  refine ⟨?_, ?_⟩
  · exact ((state_ttl_reads ⟨[], 1000⟩ "k" (.vStr "v") .vNone
      60 0 61 _ rfl (by decide)).1 (by decide)).1
  · exact (state_ttl_reads ⟨[], 1000⟩ "k" (.vStr "v") .vNone
      60 0 60 _ rfl (by decide)).2 (by decide)

/-! ## Claim C10: falsy results bypass result shaping -/

/-- C10 (confirmed).  Whenever the capability or dispatcher result is
falsy (None, empty string, zero, False, empty map or empty list), the
executor emits only a final completed status with the fixed success
message: no artifact is attached and the type-based shaping is bypassed. -/
theorem falsy_result_no_artifact (agentName : String) (result : PyValue)
    (hfalsy : result.truthy = false) :
    createResponseArtifact agentName result =
      [.updateStatus .completed "Task completed successfully." true] := by
  unfold createResponseArtifact
  rw [hfalsy]
  rfl

/-- C10 (witness): the empty string and the empty list both yield only the
completed status. -/
theorem falsy_result_no_artifact_witness :
    createResponseArtifact "agent" (.vStr "") =
      [.updateStatus .completed "Task completed successfully." true] ∧
    createResponseArtifact "agent" (.vList []) =
      [.updateStatus .completed "Task completed successfully." true] :=
  ⟨falsy_result_no_artifact "agent" (.vStr "") rfl,
   falsy_result_no_artifact "agent" (.vList []) rfl⟩

/-! ## Claim C7: type-based result shaping -/

/-- C7 (counterexample).  The claim fails for an empty (falsy) string
result: instead of a single empty TextPart in an artifact named
agent-result, the executor emits only the completed status and no
artifact at all. -/
theorem result_shaping_counterexample :
    createResponseArtifact "agent" (.vStr "") =
      [.updateStatus .completed "Task completed successfully." true] ∧
    createResponseArtifact "agent" (.vStr "") ≠
      [.addArtifact [.textPart (.vStr "")] ("agent" ++ "-result"), .complete] := by
  constructor
  · rfl
  · intro hEq
    rw [show createResponseArtifact "agent" (.vStr "") =
      [.updateStatus .completed "Task completed successfully." true] from rfl] at hEq
    injection hEq with h1 _
    exact UpdaterAction.noConfusion h1

/-- C7 (amended).  For every truthy result the executor adds one artifact
named agentName-result and completes, with the parts determined by the
result's type: a nonempty string becomes a single TextPart; a nonempty
map with a summary key becomes TextPart(summary) plus DataPart(whole map)
and without one a single DataPart(whole map); a nonempty list becomes
DataPart of an items map; any other truthy value becomes the TextPart of
its string form.  Falsy results bypass these rules. -/
theorem result_shaping_amended (agentName : String) :
    (∀ s : String, s ≠ "" →
      createResponseArtifact agentName (.vStr s) =
        [.addArtifact [.textPart (.vStr s)] (agentName ++ "-result"), .complete]) ∧
    (∀ (d : List (String × PyValue)) (sv : PyValue), d ≠ [] →
      List.lookup "summary" d = some sv →
      createResponseArtifact agentName (.vDict d) =
        [.addArtifact [.textPart sv, .dataPart (.vDict d)] (agentName ++ "-result"),
          .complete]) ∧
    (∀ d : List (String × PyValue), d ≠ [] →
      List.lookup "summary" d = none →
      createResponseArtifact agentName (.vDict d) =
        [.addArtifact [.dataPart (.vDict d)] (agentName ++ "-result"), .complete]) ∧
    (∀ l : List PyValue, l ≠ [] →
      createResponseArtifact agentName (.vList l) =
        [.addArtifact [.dataPart (.vDict [("items", .vList l)])] (agentName ++ "-result"),
          .complete]) ∧
    (∀ n : Int, n ≠ 0 →
      createResponseArtifact agentName (.vInt n) =
        [.addArtifact [.textPart (.vStr (PyValue.pyStr (.vInt n)))] (agentName ++ "-result"),
          .complete]) := by
  refine ⟨?_, ?_, ?_, ?_, ?_⟩
  · intro s hs
    have htr : (PyValue.vStr s).truthy = true := by
      simp [PyValue.truthy, hs]
    unfold createResponseArtifact
    rw [htr]
    rfl
  · intro d sv hd hsum
    cases d with
    | nil => exact absurd rfl hd
    | cons p tl =>
      unfold createResponseArtifact
      simp only [PyValue.truthy, Bool.not_true, Bool.false_eq_true, if_false, hsum]
      rfl
  · intro d hd hsum
    cases d with
    | nil => exact absurd rfl hd
    | cons p tl =>
      unfold createResponseArtifact
      simp only [PyValue.truthy, Bool.not_true, Bool.false_eq_true, if_false, hsum]
      rfl
  · intro l hl
    cases l with
    | nil => exact absurd rfl hl
    | cons p tl =>
      unfold createResponseArtifact
      simp only [PyValue.truthy, Bool.not_true, Bool.false_eq_true, if_false]
  · intro n hn
    have htr : (PyValue.vInt n).truthy = true := by
      simp [PyValue.truthy, hn]
    unfold createResponseArtifact
    rw [htr]
    rfl

/-- C7 (witness): the typed shaping on a concrete nonempty string and a
concrete map carrying a summary. -/
theorem result_shaping_witness :
    createResponseArtifact "agent" (.vStr "hello") =
      [.addArtifact [.textPart (.vStr "hello")] ("agent" ++ "-result"), .complete] ∧
    createResponseArtifact "agent" (.vDict [("summary", .vStr "done"), ("n", .vInt 2)]) =
      [.addArtifact [.textPart (.vStr "done"),
        .dataPart (.vDict [("summary", .vStr "done"), ("n", .vInt 2)])]
        ("agent" ++ "-result"), .complete] :=
  ⟨(result_shaping_amended "agent").1 "hello" (by decide),
   (result_shaping_amended "agent").2.1 [("summary", .vStr "done"), ("n", .vInt 2)]
     (.vStr "done") (by simp) rfl⟩

/-! ## Claim C3: exception handling in execute -/

/-- C3 (counterexample).  An exception that is not a `ValueError` ends the
task as failed even when its message carries the unsupported-operation
marker, contradicting the claim that the marker always yields rejected. -/
theorem executor_exception_counterexample :
    executeExceptionHandling (.otherError "unsupported operation") =
      [.updateStatus .failed
        ("I encountered an error processing your request: " ++ "unsupported operation")
        true] ∧
    strContains (strLower "unsupported operation") "unsupported" = true ∧
    TaskState.failed ≠ TaskState.rejected := by
  refine ⟨rfl, by decide, by decide⟩

/-- C3 (amended).  Only a `ValueError` whose lowercased message contains
the unsupported marker ends the task rejected; a `ValueError` without the
marker is swallowed with no terminal status at all; every other exception
ends the task failed with the message surfaced; and an exception raised
inside a capability handler under direct routing never reaches these
handlers at all — it is converted to an error string, so the task
completes with that string as a text artifact. -/
theorem executor_exception_amended :
    (∀ m : String, strContains (strLower m) "unsupported" = true →
      executeExceptionHandling (.valueError m) =
        [.updateStatus .rejected ("This operation is not supported: " ++ m) true]) ∧
    (∀ m : String, strContains (strLower m) "unsupported" = false →
      executeExceptionHandling (.valueError m) = []) ∧
    (∀ m : String,
      executeExceptionHandling (.otherError m) =
        [.updateStatus .failed ("I encountered an error processing your request: " ++ m)
          true]) ∧
    (∀ agentName skillId m : String,
      createResponseArtifact agentName
          (.vStr (processDirectRouting skillId (.raises m))) =
        [.addArtifact [.textPart (.vStr ("Error processing request: " ++ m))]
          (agentName ++ "-result"), .complete]) := by
  refine ⟨?_, ?_, ?_, ?_⟩
  · intro m hm
    simp only [executeExceptionHandling, hm, if_true]
  · intro m hm
    simp only [executeExceptionHandling, hm, Bool.false_eq_true, if_false]
  · intro m
    rfl
  · intro agentName skillId m
    have hne : "Error processing request: " ++ m ≠ "" := by
      intro hem
      have hlen := congrArg String.length hem
      rw [String.length_append] at hlen
      have h25 : ("Error processing request: " : String).length = 26 := rfl
      have h0 : ("" : String).length = 0 := rfl
      omega
    have hpd : processDirectRouting skillId (.raises m) =
        "Error processing request: " ++ m := rfl
    have htr : (PyValue.vStr ("Error processing request: " ++ m)).truthy = true := by
      simp [PyValue.truthy, hne]
    rw [hpd]
    unfold createResponseArtifact
    rw [htr]
    rfl

/-- C3 (witness): a marked ValueError is rejected, an unmarked one is
swallowed, and a handler exception under direct routing completes with an
error-text artifact. -/
theorem executor_exception_amended_witness :
    executeExceptionHandling (.valueError "Unsupported operation: streaming") =
      [.updateStatus .rejected
        ("This operation is not supported: " ++ "Unsupported operation: streaming") true] ∧
    executeExceptionHandling (.valueError "boom") = [] ∧
    createResponseArtifact "agent" (.vStr (processDirectRouting "echo" (.raises "oops"))) =
      [.addArtifact [.textPart (.vStr ("Error processing request: " ++ "oops"))]
        ("agent" ++ "-result"), .complete] :=
  ⟨executor_exception_amended.1 _ (by decide),
   executor_exception_amended.2.1 _ (by decide),
   executor_exception_amended.2.2.2 "agent" "echo" "oops"⟩

/-! ## Claim C4: the LLM function-calling round -/

/-- C4 (counterexample).  With a provider whose first turn returns a call
to add(a=2,b=3) and whose second turn would return the assistant text, the
function-calling path returns the raw joined function result and never
consults the second turn: two oracles differing only from round 1 onward
give the same outcome, which is the function result, not the text the
claimed follow-up round would produce. -/
theorem llm_single_round_counterexample :
    llmWithFunctions
        (fun n => if n = 0 then ⟨"", [⟨"add", "a=2,b=3"⟩]⟩ else ⟨"The sum is 5.", []⟩)
        true
        (fun fc => if fc.name = "add" then .ok "5" else .error "unknown function") = "5" ∧
    llmWithFunctions
        (fun n => if n = 0 then ⟨"", [⟨"add", "a=2,b=3"⟩]⟩ else ⟨"round limit hit", []⟩)
        true
        (fun fc => if fc.name = "add" then .ok "5" else .error "unknown function") = "5" ∧
    ("5" : String) ≠ "The sum is 5." := by
  refine ⟨rfl, rfl, by decide⟩

/-- C4 (amended).  `llm_with_functions` is single-round: the provider is
consulted exactly once (the outcome depends only on the round-0 response),
there is no `max_iterations` bound and no failed outcome; a response
without function calls yields its content; a response with calls yields
the calls' results executed in order, joined with semicolons, prefixed in
the native path by a nonempty assistant content. -/
theorem llm_single_round_amended :
    (∀ (llm llm2 : Nat → LLMResponse) (native : Bool)
        (execFC : FunctionCall → Except String String),
      llm 0 = llm2 0 →
      llmWithFunctions llm native execFC = llmWithFunctions llm2 native execFC) ∧
    (∀ (llm : Nat → LLMResponse) (native : Bool)
        (execFC : FunctionCall → Except String String),
      (llm 0).function_calls = [] →
      llmWithFunctions llm native execFC = (llm 0).content) ∧
    (∀ (llm : Nat → LLMResponse) (execFC : FunctionCall → Except String String)
        (fc : FunctionCall) (rest : List FunctionCall),
      (llm 0).function_calls = fc :: rest →
      llmWithFunctions llm false execFC =
        String.intercalate "; " (runFunctionCalls execFC (fc :: rest))) ∧
    (∀ (llm : Nat → LLMResponse) (execFC : FunctionCall → Except String String)
        (fc : FunctionCall) (rest : List FunctionCall),
      (llm 0).function_calls = fc :: rest → (llm 0).content ≠ "" →
      llmWithFunctions llm true execFC =
        (llm 0).content ++ "\n\nResults: " ++
          String.intercalate "; " (runFunctionCalls execFC (fc :: rest))) := by
  refine ⟨?_, ?_, ?_, ?_⟩
  · intro llm llm2 native execFC h
    unfold llmWithFunctions
    rw [h]
  · intro llm native execFC h
    cases native <;> simp [llmWithFunctions, h]
  · intro llm execFC fc rest h
    simp [llmWithFunctions, h, runFunctionCalls]
  · intro llm execFC fc rest h h2
    have hb : ((llm 0).content == "") = false := by
      simp [h2]
    simp [llmWithFunctions, h, hb, runFunctionCalls]

/-- C4 (witness): a prompt-based round with one add call yields the joined
function result. -/
theorem llm_single_round_witness :
    llmWithFunctions (fun _ => ⟨"", [⟨"add", "a=2,b=3"⟩]⟩) false
        (fun fc => if fc.name = "add" then .ok "5" else .error "unknown function") = "5" :=
  (llm_single_round_amended.2.2.1 (fun _ => ⟨"", [⟨"add", "a=2,b=3"⟩]⟩)
    (fun fc => if fc.name = "add" then .ok "5" else .error "unknown function")
    ⟨"add", "a=2,b=3"⟩ [] rfl).trans rfl

/-! ## Claim C5: provider order in authentication -/

/-- C5 (counterexample).  With bearer listed first and api_key second, a
request carrying a key that the api_key provider itself accepts is still
rejected with 401: `_initialize_providers` keeps only the first auth type,
so the api_key provider is never built, let alone consulted. -/
theorem auth_primary_provider_counterexample :
    apiKeyAuthenticate ⟨some [("keyA", ⟨some "alice", some ["x"]⟩)], none, none⟩
        ⟨[("X-API-Key", "keyA")]⟩ =
      some ⟨"alice", .api_key, ["x"], none, true⟩ ∧
    authenticateRequest (fun _ _ => none) (fun _ _ => none) [] true
        (initializeProviders
          [("bearer", .bearerC ⟨none, [("tokB", ⟨some "bob", some ["a"]⟩)]⟩),
           ("api_key", .apiKeyC ⟨some [("keyA", ⟨some "alice", some ["x"]⟩)], none, none⟩)])
        [] ⟨[("X-API-Key", "keyA")]⟩ = .error .unauthorized := by
  refine ⟨rfl, rfl⟩

/-- C5 (amended).  Only the first auth type listed in the config is
initialized (the rest are ignored with a warning); within the initialized
provider list, providers are tried in order and the first returning a
valid context wins with the rest not consulted, while a provider
returning nothing falls through — so a credential authenticates a request
iff it is valid for the primary provider. -/
theorem auth_primary_provider_amended :
    (∀ (c : String × AuthTypeCfg) (rest : List (String × AuthTypeCfg)),
      initializeProviders (c :: rest) = initializeProviders [c]) ∧
    (∀ (jwtDecode : JwtCfg → String → Option JwtPayload)
        (externalValidate : String → String → Option AuthContextM)
        (hierarchy : List (String × List String)) (requiredScopes : List String)
        (p : Provider) (ps : List Provider) (req : Request) (ctx : AuthContextM),
      providerAuthenticate jwtDecode externalValidate p req = some ctx →
      ctx.is_valid = true →
      authGo jwtDecode externalValidate hierarchy requiredScopes (p :: ps) req =
        authGo jwtDecode externalValidate hierarchy requiredScopes [p] req) ∧
    (∀ (jwtDecode : JwtCfg → String → Option JwtPayload)
        (externalValidate : String → String → Option AuthContextM)
        (hierarchy : List (String × List String)) (requiredScopes : List String)
        (p : Provider) (ps : List Provider) (req : Request),
      providerAuthenticate jwtDecode externalValidate p req = none →
      authGo jwtDecode externalValidate hierarchy requiredScopes (p :: ps) req =
        authGo jwtDecode externalValidate hierarchy requiredScopes ps req) := by
  refine ⟨?_, ?_, ?_⟩
  · intro c rest
    cases c
    rfl
  · intro jwtDecode externalValidate hierarchy requiredScopes p ps req ctx hAuth hvalid
    simp only [authGo, hAuth, hvalid, if_true]
  · intro jwtDecode externalValidate hierarchy requiredScopes p ps req hAuth
    simp only [authGo, hAuth]

/-- C5 (witness): a second configured auth type is discarded at
initialization, and a valid bearer credential decides the loop on the
first provider alone. -/
theorem auth_primary_provider_witness :
    initializeProviders
        [("bearer", .bearerC ⟨none, [("tokB", ⟨some "bob", some ["a"]⟩)]⟩),
         ("api_key", .apiKeyC ⟨some [("keyA", ⟨some "alice", some ["x"]⟩)], none, none⟩)] =
      initializeProviders [("bearer", .bearerC ⟨none, [("tokB", ⟨some "bob", some ["a"]⟩)]⟩)] ∧
    authGo (fun _ _ => none) (fun _ _ => none) [] []
        (.bearerP ⟨none, [("tokB", ⟨some "bob", some ["a"]⟩)]⟩ ::
          [.apiKeyP ⟨some [("keyA", ⟨some "alice", some ["x"]⟩)], none, none⟩])
        ⟨[("Authorization", "Bearer tokB")]⟩ =
      authGo (fun _ _ => none) (fun _ _ => none) [] []
        [.bearerP ⟨none, [("tokB", ⟨some "bob", some ["a"]⟩)]⟩]
        ⟨[("Authorization", "Bearer tokB")]⟩ :=
  ⟨auth_primary_provider_amended.1 _ _,
   auth_primary_provider_amended.2.1 _ _ _ _ _ _ _ ⟨"bob", .bearer, ["a"], none, true⟩ rfl rfl⟩

/-! ## Claim C6: router fallback configuration -/

/-- The first list contributing no match leaves `find?` to the second. -/
theorem find?_append_none {α : Type} (p : α → Bool) :
    ∀ (l₁ l₂ : List α), l₁.find? p = none → (l₁ ++ l₂).find? p = l₂.find? p := by
  intro l₁
  induction l₁ with
  | nil => intro l₂ _; rfl
  | cons a tl ih =>
    intro l₂ hnone
    cases hpa : p a with
    | true => rw [List.find?_cons_of_pos _ hpa] at hnone; cases hnone
    | false =>
      have hpa2 : ¬ p a = true := by simp [hpa]
      rw [List.find?_cons_of_neg _ hpa2] at hnone
      rw [List.cons_append, List.find?_cons_of_neg _ hpa2]
      exact ih l₂ hnone

/-- C6 (counterexample).  The fallback comes from the config key
fallback_skill, not fallback_capability: with only fallback_capability set
(to statuscap) and nothing matching, routing falls back to the built-in
default echo, ignoring the configured value. -/
theorem router_counterexample :
    determineSkillAndRouting (fun _ _ => some false) []
        (executorFallbackSkill ⟨none, none, some "statuscap", none⟩)
        (executorDefaultRoutingMode ⟨none, none, some "statuscap", none⟩)
        "random input" = ("echo", "ai") ∧
    ("echo" : String) ≠ "statuscap" := by
  refine ⟨rfl, by decide⟩

/-- C6 (amended).  For nonempty input the router walks the skills in
configured order; the first direct-mode skill matching by
case-insensitive keyword substring or by regex pattern (invalid patterns
skipped, never fatal) wins; when nothing matches it returns the fallback
skill and default mode read from the routing config keys fallback_skill
(default echo) and default_mode (default ai) — not fallback_capability. -/
theorem router_amended (reSearch : String → String → Option Bool)
    (skills : List SkillRouting) (rc : RoutingConfig) (input : String)
    (hne : input ≠ "") :
    ((∀ sk ∈ skills, sk.routing_mode = "direct" →
        skillMatches reSearch input sk = false) →
      determineSkillAndRouting reSearch skills (executorFallbackSkill rc)
          (executorDefaultRoutingMode rc) input =
        (rc.fallback_skill.getD "echo", rc.default_mode.getD "ai")) ∧
    (∀ (pre : List SkillRouting) (sk : SkillRouting) (post : List SkillRouting),
      skills = pre ++ sk :: post →
      (∀ s ∈ pre, s.routing_mode = "direct" → skillMatches reSearch input s = false) →
      sk.routing_mode = "direct" → skillMatches reSearch input sk = true →
      determineSkillAndRouting reSearch skills (executorFallbackSkill rc)
          (executorDefaultRoutingMode rc) input = (sk.skill_id, "direct")) ∧
    (∀ sk : SkillRouting,
      skillMatches reSearch input sk = true ↔
        ((∃ kw ∈ sk.keywords, strContains (strLower input) (strLower kw) = true) ∨
         (∃ pa ∈ sk.patterns, reSearch pa input = some true))) := by
  refine ⟨?_, ?_, ?_⟩
  · intro hnomatch
    unfold determineSkillAndRouting
    rw [if_neg hne]
    have hfind : skills.find?
        (fun sk => sk.routing_mode == "direct" && skillMatches reSearch input sk) = none := by
      rw [List.find?_eq_none]
      intro sk hsk
      by_cases hd : sk.routing_mode = "direct"
      · simp [hd, hnomatch sk hsk hd]
      · simp [hd]
    rw [hfind]
    rfl
  · intro pre sk post hskills hpre hdirect hmatch
    subst hskills
    unfold determineSkillAndRouting
    rw [if_neg hne]
    have hfindpre : pre.find?
        (fun s => s.routing_mode == "direct" && skillMatches reSearch input s) = none := by
      rw [List.find?_eq_none]
      intro s hs
      by_cases hd : s.routing_mode = "direct"
      · simp [hd, hpre s hs hd]
      · simp [hd]
    rw [find?_append_none _ pre (sk :: post) hfindpre]
    rw [List.find?_cons_of_pos _ (by simp [hdirect, hmatch])]
    show (sk.skill_id, sk.routing_mode) = (sk.skill_id, "direct")
    rw [hdirect]
  · intro sk
    have hp : ∀ pa, ((reSearch pa input).getD false = true) ↔ reSearch pa input = some true := by
      intro pa
      cases hr : reSearch pa input <;> simp
    simp [skillMatches, List.any_eq_true, hp]

/-- C6 (witness): a direct skill with keyword echo wins on matching input
and yields direct routing. -/
theorem router_witness :
    determineSkillAndRouting (fun _ _ => some false)
        [⟨"echo", "direct", ["echo"], []⟩]
        (executorFallbackSkill ⟨none, some "fb", none, none⟩)
        (executorDefaultRoutingMode ⟨none, some "fb", none, none⟩)
        "please echo hello" = ("echo", "direct") :=
  (router_amended (fun _ _ => some false) [⟨"echo", "direct", ["echo"], []⟩]
    ⟨none, some "fb", none, none⟩ "please echo hello" (by decide)).2.1 []
    ⟨"echo", "direct", ["echo"], []⟩ [] rfl (fun s hs => absurd hs (List.not_mem_nil s)) rfl
    (by decide)

end AgentUp
